import Mathlib

/-!
Verification of the Couple's Quest Tracker (`src/script.js`).

The script keeps one mutable application state (names, tagline, background,
overlay darkness, and two quest lists), persists it as a JSON string under the
localStorage key `coupleQuestData`, and rebuilds the whole DOM from the state
on every change.  This file embeds the state, the JSON serialization layer
(`JSON.stringify` / `JSON.parse` on the fragment of values the app stores),
the persistence functions `getData` / `saveData`, the render step, and every
state-mutating event handler, and proves the spec's testable properties.

Modelling conventions:
* JS numbers reaching the state are exact decimal values (`parseFloat` of the
  slider's decimal strings, or the literal `0.6`), embedded as a mantissa and
  a count of fraction digits (`JNum`).
* Strings are Lean strings (Unicode scalar sequences).
* `localStorage` is an `Option String`; `getItem` returning `null` is `none`,
  and JS truthiness of the stored string is `≠ ""`.
* The host's `JSON.parse` is embedded as a total fuelled parser covering the
  grammar `JSON.stringify` emits plus surrounding whitespace; inputs outside
  that grammar are exactly the inputs on which the parser yields `none`
  (the embedded image of "JSON.parse throws").
* The DOM is a `World` record: the mounted tree, the count of `.overlay`
  elements on `document.body`, the live overlay opacity, the body background,
  plus instrumentation counters (render calls, write attempts, logged errors).
-/

namespace Quest

/-! ## Characters and small JS string primitives -/

/-- Decimal digit test used by the JSON scanner. -/
def isDig (c : Char) : Bool := '0' ≤ c && c ≤ '9'

/-- JSON insignificant whitespace (RFC 8259: space, tab, LF, CR). -/
def isJsonWs (c : Char) : Bool := c == ' ' || c == '\t' || c == '\n' || c == '\r'

/-- Whitespace stripped by JS `String.prototype.trim` (the characters that can
occur in this model: space, tab, LF, CR, VT, FF, NBSP). -/
def isTrimWs (c : Char) : Bool :=
  c == ' ' || c == '\t' || c == '\n' || c == '\r' || c == '\x0b' || c == '\x0c' || c == '\xa0'

/-- JS `value.trim()`: strip leading and trailing whitespace. -/
def jsTrim (s : String) : String :=
  String.mk (((s.data.dropWhile isTrimWs).reverse.dropWhile isTrimWs).reverse)

/-- JS `value || ''` on strings: the empty string is falsy, everything else
short-circuits to itself. -/
def jsOrEmpty (s : String) : String := if s = "" then "" else s

/-! ## The application state (`script.js` lines 14-39 and the shapes the
handlers maintain) -/

/-- One quest entry: `{ text, completed }`. -/
structure Task where
  text : String
  completed : Bool
deriving DecidableEq, Repr

/-- One quest category: `{ title, tasks }`. -/
structure Category where
  title : String
  tasks : List Task
deriving DecidableEq, Repr

/-- A JS number as it occurs in this app: an exact decimal
`mant / 10 ^ frac`.  The slider delivers `parseFloat` of decimal literals and
the default overlay is the literal `0.6`, so every number in the state is of
this form. -/
structure JNum where
  mant : Int
  frac : Nat
deriving DecidableEq, Repr

/-- The application state: `{ names, tagline, background, overlay, sections }`. -/
structure AppState where
  names : String
  tagline : String
  background : String
  overlay : JNum
  sections : List Category
deriving DecidableEq, Repr

/-- The default data literal (`script.js` lines 14-39). -/
def defaultData : AppState :=
  { names := "You & Me"
    tagline := "Adventures, dreams and memories together"
    background := "images/cosmos.jpg"
    overlay := ⟨6, 1⟩
    sections :=
      [ { title := "Travel Adventures"
          tasks :=
            [ ⟨"Visit Paris, France", false⟩
            , ⟨"Road trip across Iceland", false⟩
            , ⟨"See the Northern Lights together", false⟩
            , ⟨"Tokyo cherry blossoms", false⟩ ] }
      , { title := "Personal Goals"
          tasks :=
            [ ⟨"Learn Spanish together", false⟩
            , ⟨"Cook 50 new recipes", false⟩
            , ⟨"Run a 5K together", false⟩
            , ⟨"Read 12 books together", false⟩ ] } ] }

/-! ## JSON values -/

/-- A JSON value, with numbers in the exact decimal form of `JNum`. -/
inductive Json where
  | null
  | bool (b : Bool)
  | num (n : JNum)
  | str (s : String)
  | arr (elems : List Json)
  | obj (fields : List (String × Json))

/-- The JSON tree of a task, with keys in the insertion order of the JS
object literal `{ text, completed }`. -/
def taskToJson (t : Task) : Json :=
  .obj [("text", .str t.text), ("completed", .bool t.completed)]

/-- The JSON tree of a category (`{ title, tasks }`). -/
def categoryToJson (c : Category) : Json :=
  .obj [("title", .str c.title), ("tasks", .arr (c.tasks.map taskToJson))]

/-- The JSON tree of the whole state, keys in the field order of the source's
object literal.  Deep equality of the JS values the app builds is equality of
these trees. -/
def stateToJson (s : AppState) : Json :=
  .obj
    [ ("names", .str s.names)
    , ("tagline", .str s.tagline)
    , ("background", .str s.background)
    , ("overlay", .num s.overlay)
    , ("sections", .arr (s.sections.map categoryToJson)) ]

/-! ## The serializer (the `JSON.stringify` the app applies to its state)

`emit` produces the compact (whitespace-free) output `JSON.stringify`
produces, over `List Char`; `emitJson` wraps it as a `String`. -/

/-- The character of a decimal digit value. -/
def digitChar (d : Nat) : Char := Char.ofNat (48 + d)

/-- Decimal digits of `n`, least significant first; the fuel argument (any
bound on `n`) makes the recursion structural.  Empty when `n = 0`. -/
def natDigitsRev : Nat → Nat → List Char
  | 0, _ => []
  | f + 1, n => if n = 0 then [] else digitChar (n % 10) :: natDigitsRev f (n / 10)

/-- Decimal digit characters of `n`, most significant first (`"0"` for zero). -/
def emitNat (n : Nat) : List Char :=
  if n = 0 then ['0'] else (natDigitsRev n n).reverse

/-- Decimal characters of an integer: optional sign, then digits. -/
def emitInt (i : Int) : List Char :=
  if i < 0 then '-' :: emitNat i.natAbs else emitNat i.natAbs

/-- The fraction block of a decimal: the digits of `r` left-padded with zeros
to exactly `f` digits (callers supply `r < 10 ^ f`). -/
def fracBlock (r f : Nat) : List Char :=
  List.replicate (f - (emitNat r).length) '0' ++ emitNat r

/-- Characters of a `JNum`, exactly as `JSON.stringify` prints the doubles
this app stores: plain integer when there are no fraction digits, otherwise
integer part, `'.'`, then the zero-padded fraction block. -/
def emitNum (x : JNum) : List Char :=
  if x.frac = 0 then emitInt x.mant
  else
    (if x.mant < 0 then ['-'] else []) ++
      emitNat (x.mant.natAbs / 10 ^ x.frac) ++
        '.' :: fracBlock (x.mant.natAbs % 10 ^ x.frac) x.frac

/-- Lower-case hex digit character. -/
def hexDigitChar (n : Nat) : Char :=
  if n < 10 then digitChar n else Char.ofNat (87 + n)

/-- JSON escape of one character: quote and backslash escaped, the named
control escapes, `\u00XX` for the remaining control characters, all other
characters verbatim. -/
def escChar (c : Char) : List Char :=
  if c = '"' then ['\\', '"']
  else if c = '\\' then ['\\', '\\']
  else if c = '\x08' then ['\\', 'b']
  else if c = '\t' then ['\\', 't']
  else if c = '\n' then ['\\', 'n']
  else if c = '\x0c' then ['\\', 'f']
  else if c = '\r' then ['\\', 'r']
  else if c.toNat < 32 then
    ['\\', 'u', '0', '0', hexDigitChar (c.toNat / 16), hexDigitChar (c.toNat % 16)]
  else [c]

/-- The escaped body of a JSON string literal. -/
def emitStrBody (s : String) : List Char := s.data.flatMap escChar

/-- A JSON string literal: quote, escaped body, quote. -/
def emitStr (s : String) : List Char := '"' :: (emitStrBody s ++ ['"'])

mutual

/-- Compact JSON characters of a value. -/
def emit : Json → List Char
  | .null => "null".data
  | .bool true => "true".data
  | .bool false => "false".data
  | .num x => emitNum x
  | .str s => emitStr s
  | .arr es => '[' :: (emitItems es ++ [']'])
  | .obj fs => '\x7b' :: (emitFields fs ++ ['\x7d'])

/-- Comma-separated array elements (no brackets). -/
def emitItems : List Json → List Char
  | [] => []
  | [e] => emit e
  | e :: e2 :: es => emit e ++ ',' :: emitItems (e2 :: es)

/-- Comma-separated object members (no braces), each `"key":value`. -/
def emitFields : List (String × Json) → List Char
  | [] => []
  | [(k, v)] => emitStr k ++ ':' :: emit v
  | (k, v) :: f2 :: fs => emitStr k ++ ':' :: emit v ++ ',' :: emitFields (f2 :: fs)

end

/-- `JSON.stringify` of a value, as a string. -/
def emitJson (j : Json) : String := String.mk (emit j)

/-! ## The parser (the `JSON.parse` applied to the stored blob)

A total, fuelled parser for the compact grammar the serializer emits, plus
insignificant whitespace.  `parseDoc s = none` is the embedded image of
"`JSON.parse(s)` throws". -/

/-- Drop leading JSON whitespace. -/
def wsDrop (cs : List Char) : List Char := cs.dropWhile isJsonWs

/-- Split a longest leading run of decimal digits from the input. -/
def scanDigits : List Char → List Char × List Char
  | [] => ([], [])
  | c :: cs =>
    if isDig c then
      let p := scanDigits cs
      (c :: p.1, p.2)
    else ([], c :: cs)

/-- The number a most-significant-first digit run denotes. -/
def valMSB (ds : List Char) : Nat :=
  ds.foldl (fun a c => 10 * a + (c.toNat - 48)) 0

/-- The value of one hex digit, if the character is one. -/
def hexValC (c : Char) : Option Nat :=
  if isDig c then some (c.toNat - 48)
  else if 'a' ≤ c && c ≤ 'f' then some (c.toNat - 87)
  else if 'A' ≤ c && c ≤ 'F' then some (c.toNat - 55)
  else none

/-- The character a single-letter escape denotes. -/
def escCode : Char → Option Char
  | '"' => some '"'
  | '\\' => some '\\'
  | '/' => some '/'
  | 'b' => some '\x08'
  | 'f' => some '\x0c'
  | 'n' => some '\n'
  | 'r' => some '\r'
  | 't' => some '\t'
  | _ => none

mutual

/-- Scan a string body after the opening quote, undoing escapes; yields the
content and the input after the closing quote.  Raw control characters are
rejected, as in the JSON grammar. -/
def scanStr : List Char → Option (List Char × List Char)
  | [] => none
  | c :: rest =>
    if c = '"' then some ([], rest)
    else if c = '\\' then scanEsc rest
    else if c.toNat < 32 then none
    else (scanStr rest).map (fun p => (c :: p.1, p.2))

/-- Scan the remainder of a string body just after a backslash. -/
def scanEsc : List Char → Option (List Char × List Char)
  | 'u' :: a :: b :: c :: d :: rest =>
    (match hexValC a, hexValC b, hexValC c, hexValC d with
     | some va, some vb, some vc, some vd =>
       (scanStr rest).map
         (fun p => (Char.ofNat (((va * 16 + vb) * 16 + vc) * 16 + vd) :: p.1, p.2))
     | _, _, _, _ => none)
  | e :: rest =>
    (match escCode e with
     | some ch => (scanStr rest).map (fun p => (ch :: p.1, p.2))
     | none => none)
  | [] => none

end

/-- Scan an unsigned decimal: digits, optionally a point and more digits;
yields the combined digit value and the number of fraction digits. -/
def scanUNum (cs : List Char) : Option ((Nat × Nat) × List Char) :=
  if (scanDigits cs).1 = [] then none
  else
    match (scanDigits cs).2 with
    | '.' :: r2 =>
      if (scanDigits r2).1 = [] then none
      else
        some ((valMSB ((scanDigits cs).1 ++ (scanDigits r2).1), (scanDigits r2).1.length),
          (scanDigits r2).2)
    | _ => some ((valMSB (scanDigits cs).1, 0), (scanDigits cs).2)

/-- Scan a JSON number (optional minus, then an unsigned decimal). -/
def scanNum : List Char → Option (JNum × List Char)
  | [] => none
  | c :: r =>
    if c = '-' then (scanUNum r).map (fun p => (⟨-(p.1.1 : Int), p.1.2⟩, p.2))
    else (scanUNum (c :: r)).map (fun p => (⟨(p.1.1 : Int), p.1.2⟩, p.2))

/-- Consume an expected literal tail (the `ull` of `null`, etc.). -/
def afterLit : List Char → List Char → Option (List Char)
  | [], r => some r
  | p :: ps, c :: r => if c = p then afterLit ps r else none
  | _ :: _, [] => none

mutual

/-- Parse one JSON value (fuel-structural; `none` doubles for a parse error
and for fuel exhaustion, which sufficient fuel rules out). -/
def parseVal : Nat → List Char → Option (Json × List Char)
  | 0, _ => none
  | f + 1, cs =>
    match wsDrop cs with
    | [] => none
    | c :: r =>
      if c = 'n' then (afterLit ['u', 'l', 'l'] r).map (fun r2 => (Json.null, r2))
      else if c = 't' then (afterLit ['r', 'u', 'e'] r).map (fun r2 => (Json.bool true, r2))
      else if c = 'f' then (afterLit ['a', 'l', 's', 'e'] r).map (fun r2 => (Json.bool false, r2))
      else if c = '"' then (scanStr r).map (fun p => (Json.str (String.mk p.1), p.2))
      else if c = '[' then
        (match wsDrop r with
         | ']' :: r2 => some (Json.arr [], r2)
         | r2 => (parseItems f r2).map (fun p => (Json.arr p.1, p.2)))
      else if c = '\x7b' then
        (match wsDrop r with
         | '\x7d' :: r2 => some (Json.obj [], r2)
         | r2 => (parseFields f r2).map (fun p => (Json.obj p.1, p.2)))
      else if c = '-' || isDig c then (scanNum (c :: r)).map (fun p => (Json.num p.1, p.2))
      else none

/-- Parse one or more comma-separated values up to and including the closing
bracket. -/
def parseItems : Nat → List Char → Option (List Json × List Char)
  | 0, _ => none
  | f + 1, cs =>
    match parseVal f cs with
    | none => none
    | some (v, r) =>
      match wsDrop r with
      | ',' :: r2 => (parseItems f r2).map (fun p => (v :: p.1, p.2))
      | ']' :: r2 => some ([v], r2)
      | _ => none

/-- Parse one or more comma-separated `"key":value` members up to and
including the closing brace. -/
def parseFields : Nat → List Char → Option (List (String × Json) × List Char)
  | 0, _ => none
  | f + 1, cs =>
    match wsDrop cs with
    | '"' :: r =>
      (match scanStr r with
       | none => none
       | some (k, r1) =>
         match wsDrop r1 with
         | ':' :: r2 =>
           (match parseVal f r2 with
            | none => none
            | some (v, r3) =>
              match wsDrop r3 with
              | ',' :: r4 => (parseFields f r4).map (fun p => ((String.mk k, v) :: p.1, p.2))
              | '\x7d' :: r4 => some ([(String.mk k, v)], r4)
              | _ => none)
         | _ => none)
    | _ => none

end

/-- `JSON.parse` of a whole document: one value, then only whitespace. -/
def parseDoc (s : String) : Option Json :=
  match parseVal (s.length + 1) s.data with
  | some (j, r) => if wsDrop r = [] then some j else none
  | none => none

/-! ## Round trip, step 1: digits and numbers -/

/-- A character that differs from a digit characterwise. -/
theorem ne_of_isDig {c d : Char} (h : isDig c = true) (hd : isDig d = false) : c ≠ d := by
  intro he
  rw [he, hd] at h
  cases h

/-- Digits are not JSON whitespace. -/
theorem isDig_not_ws {c : Char} (h : isDig c = true) : isJsonWs c = false := by
  cases hw : isJsonWs c with
  | false => rfl
  | true =>
    exfalso
    simp only [isJsonWs, Bool.or_eq_true, beq_iff_eq] at hw
    rcases hw with ((hw | hw) | hw) | hw <;> (subst hw; exact absurd h (by decide))

/-- Dropping whitespace in front of a non-whitespace character is the
identity. -/
theorem wsDrop_cons {c : Char} {l : List Char} (h : isJsonWs c = false) :
    wsDrop (c :: l) = c :: l := by
  simp [wsDrop, List.dropWhile_cons, h]

/-- The digit character of a value below ten is a digit and carries it. -/
theorem digitChar_spec {d : Nat} (h : d < 10) :
    isDig (digitChar d) = true ∧ (digitChar d).toNat - 48 = d := by
  interval_cases d <;> exact ⟨by decide, by decide⟩

/-- Folding the digit-value step from any seed scales the seed by the run's
width. -/
theorem valMSB_seed :
    ∀ (l : List Char) (a : Nat),
      l.foldl (fun a c => 10 * a + (c.toNat - 48)) a = a * 10 ^ l.length + valMSB l := by
  intro l
  induction l with
  | nil => intro a; simp [valMSB]
  | cons c t ih =>
    intro a
    have hv : valMSB (c :: t) = (c.toNat - 48) * 10 ^ t.length + valMSB t := by
      show List.foldl _ (10 * 0 + (c.toNat - 48)) t = _
      rw [ih]
      ring_nf
    simp only [List.foldl_cons, List.length_cons, hv, ih (10 * a + (c.toNat - 48))]
    ring

/-- Digit-run values compose positionally across append. -/
theorem valMSB_append (xs ys : List Char) :
    valMSB (xs ++ ys) = valMSB xs * 10 ^ ys.length + valMSB ys := by
  show List.foldl _ 0 (xs ++ ys) = _
  rw [List.foldl_append]
  exact valMSB_seed ys (valMSB xs)

/-- Leading zero characters do not change a digit run's value. -/
theorem valMSB_pad (k : Nat) (ds : List Char) :
    valMSB (List.replicate k '0' ++ ds) = valMSB ds := by
  rw [valMSB_append]
  have hz : ∀ m, valMSB (List.replicate m '0') = 0 := by
    intro m
    induction m with
    | zero => rfl
    | succ m ih =>
      show List.foldl _ (10 * 0 + ('0'.toNat - 48)) _ = 0
      simpa using ih
  rw [hz]
  ring

/-- Every character `natDigitsRev` produces is a digit. -/
theorem natDigitsRev_digits : ∀ (f n : Nat), ∀ c ∈ natDigitsRev f n, isDig c = true := by
  intro f
  induction f with
  | zero => intro n c hc; simp [natDigitsRev] at hc
  | succ f ih =>
    intro n c hc
    rw [natDigitsRev] at hc
    by_cases hn : n = 0
    · simp [hn] at hc
    · rw [if_neg hn] at hc
      rcases List.mem_cons.mp hc with hc | hc
      · subst hc; exact (digitChar_spec (Nat.mod_lt _ (by omega))).1
      · exact ih (n / 10) c hc

/-- With sufficient fuel, the reversed digit list denotes `n`. -/
theorem natDigitsRev_val : ∀ (f n : Nat), n ≤ f → valMSB (natDigitsRev f n).reverse = n := by
  intro f
  induction f with
  | zero => intro n h; interval_cases n; rfl
  | succ f ih =>
    intro n h
    rw [natDigitsRev]
    by_cases hn : n = 0
    · simp [hn, valMSB]
    · rw [if_neg hn, List.reverse_cons, valMSB_append]
      have hrec := ih (n / 10) (by omega)
      have hd := digitChar_spec (show n % 10 < 10 by omega)
      have hone : valMSB [digitChar (n % 10)] = n % 10 := by
        show 10 * 0 + ((digitChar (n % 10)).toNat - 48) = n % 10
        rw [hd.2]
        omega
      rw [hrec, hone]
      simp only [List.length_singleton]
      omega

/-- With sufficient fuel, at most `k` digit characters are produced for
`n < 10 ^ k`. -/
theorem natDigitsRev_len :
    ∀ (f n k : Nat), n ≤ f → n < 10 ^ k → (natDigitsRev f n).length ≤ k := by
  intro f
  induction f with
  | zero => intro n k h _; interval_cases n; simp [natDigitsRev]
  | succ f ih =>
    intro n k h hk
    rw [natDigitsRev]
    by_cases hn : n = 0
    · simp [hn]
    · rw [if_neg hn]
      cases k with
      | zero => simp at hk; omega
      | succ k =>
        have hdiv : n / 10 < 10 ^ k := by
          apply Nat.div_lt_of_lt_mul
          rw [pow_succ] at hk
          omega
        simpa using ih (n / 10) k (by omega) hdiv

/-- `emitNat` is never empty. -/
theorem emitNat_ne_nil (n : Nat) : emitNat n ≠ [] := by
  rw [emitNat]
  by_cases hn : n = 0
  · simp [hn]
  · rw [if_neg hn]
    intro he
    rw [List.reverse_eq_nil_iff] at he
    have := natDigitsRev_val n n le_rfl
    rw [he] at this
    exact hn (by simpa [valMSB] using this.symm)

/-- Every character of `emitNat` is a digit. -/
theorem emitNat_digits (n : Nat) : ∀ c ∈ emitNat n, isDig c = true := by
  intro c hc
  rw [emitNat] at hc
  by_cases hn : n = 0
  · simp [hn] at hc; subst hc; decide
  · rw [if_neg hn, List.mem_reverse] at hc
    exact natDigitsRev_digits n n c hc

/-- `emitNat` denotes its argument. -/
theorem emitNat_val (n : Nat) : valMSB (emitNat n) = n := by
  rw [emitNat]
  by_cases hn : n = 0
  · simp [hn]; decide
  · rw [if_neg hn]
    exact natDigitsRev_val n n le_rfl

/-- `emitNat` is within `k` characters for `n < 10 ^ k`. -/
theorem emitNat_len {n k : Nat} (hk : 1 ≤ k) (h : n < 10 ^ k) : (emitNat n).length ≤ k := by
  rw [emitNat]
  by_cases hn : n = 0
  · simpa [hn] using hk
  · rw [if_neg hn, List.length_reverse]
    exact natDigitsRev_len n n k le_rfl h

/-- `emitNat` in head-tail form, with a digit head. -/
theorem emitNat_cons (n : Nat) : ∃ c t, emitNat n = c :: t ∧ isDig c = true := by
  cases he : emitNat n with
  | nil => exact absurd he (emitNat_ne_nil n)
  | cons c t =>
    refine ⟨c, t, rfl, emitNat_digits n c ?_⟩
    rw [he]
    exact List.mem_cons_self c t

/-- Input that starts with no digit (or ends): a digit scan stays put. -/
def digStop : List Char → Bool
  | [] => true
  | c :: _ => !(isDig c)

/-- Input that cannot extend a number: no digit and no decimal point ahead. -/
def numStop : List Char → Bool
  | [] => true
  | c :: _ => !(isDig c || c == '.')

/-- Input that follows a complete JSON value in this grammar: end of input,
a comma, or a closing bracket or brace. -/
def boundary : List Char → Bool
  | [] => true
  | c :: _ => c == ',' || c == ']' || c == '\x7d'

/-- A value boundary cannot extend a number. -/
theorem boundary_numStop {cs : List Char} (h : boundary cs = true) : numStop cs = true := by
  cases cs with
  | nil => rfl
  | cons c t =>
    simp only [boundary, Bool.or_eq_true, beq_iff_eq] at h
    rcases h with (h | h) | h <;> (subst h; rfl)

/-- A `numStop` continuation is also a digit stop. -/
theorem numStop_digStop {cs : List Char} (h : numStop cs = true) : digStop cs = true := by
  cases cs with
  | nil => rfl
  | cons c t =>
    simp only [numStop, Bool.not_eq_eq_eq_not, Bool.not_true, Bool.or_eq_false_iff] at h
    simp [digStop, h.1]

/-- `scanDigits` does not move on a digit stop. -/
theorem scanDigits_stop {cs : List Char} (h : digStop cs = true) : scanDigits cs = ([], cs) := by
  cases cs with
  | nil => rfl
  | cons c t =>
    simp only [digStop, Bool.not_eq_eq_eq_not, Bool.not_true] at h
    simp [scanDigits, h]

/-- `scanDigits` splits off exactly a leading digit run. -/
theorem scanDigits_run :
    ∀ (ds : List Char), (∀ c ∈ ds, isDig c = true) →
      ∀ {rest : List Char}, digStop rest = true → scanDigits (ds ++ rest) = (ds, rest) := by
  intro ds
  induction ds with
  | nil => intro _ rest hr; simpa using scanDigits_stop hr
  | cons c t ih =>
    intro hds rest hr
    have hc : isDig c = true := hds c (List.mem_cons_self c t)
    have ht := ih (fun x hx => hds x (List.mem_cons_of_mem c hx)) hr
    simp [scanDigits, hc, ht]

/-- The unsigned scan inverts `emitNat` when no point follows. -/
theorem scanUNum_nat (n : Nat) {rest : List Char} (h : numStop rest = true) :
    scanUNum (emitNat n ++ rest) = some ((n, 0), rest) := by
  have hrun := scanDigits_run (emitNat n) (emitNat_digits n) (numStop_digStop h)
  rw [scanUNum]
  simp only [hrun]
  rw [if_neg (emitNat_ne_nil n)]
  split
  · exfalso
    simp [numStop] at h
  · rw [emitNat_val]

/-- The unsigned scan inverts the emitted integer-point-fraction shape. -/
theorem scanUNum_frac (n f : Nat) (hf : f ≠ 0) {rest : List Char} (h : numStop rest = true) :
    scanUNum (emitNat (n / 10 ^ f) ++ '.' :: fracBlock (n % 10 ^ f) f ++ rest) =
      some ((n, f), rest) := by
  have hfb_digits : ∀ c ∈ fracBlock (n % 10 ^ f) f, isDig c = true := by
    intro c hc
    rcases List.mem_append.mp hc with hc | hc
    · rw [List.eq_of_mem_replicate hc]; decide
    · exact emitNat_digits _ c hc
  have hfb_len : (fracBlock (n % 10 ^ f) f).length = f := by
    rw [fracBlock, List.length_append, List.length_replicate]
    have := emitNat_len (n := n % 10 ^ f) (by omega) (Nat.mod_lt _ (by positivity))
    omega
  have hfb_ne : fracBlock (n % 10 ^ f) f ≠ [] := by
    intro he
    rw [he] at hfb_len
    exact hf hfb_len.symm
  have hrun1 :
      scanDigits (emitNat (n / 10 ^ f) ++ '.' :: (fracBlock (n % 10 ^ f) f ++ rest)) =
        (emitNat (n / 10 ^ f), '.' :: (fracBlock (n % 10 ^ f) f ++ rest)) :=
    scanDigits_run (emitNat (n / 10 ^ f)) (emitNat_digits _) rfl
  have hrun2 :
      scanDigits (fracBlock (n % 10 ^ f) f ++ rest) = (fracBlock (n % 10 ^ f) f, rest) :=
    scanDigits_run _ hfb_digits (numStop_digStop h)
  have hshape :
      emitNat (n / 10 ^ f) ++ '.' :: fracBlock (n % 10 ^ f) f ++ rest =
        emitNat (n / 10 ^ f) ++ '.' :: (fracBlock (n % 10 ^ f) f ++ rest) := by
    simp
  rw [hshape, scanUNum]
  simp only [hrun1, hrun2]
  rw [if_neg (emitNat_ne_nil _), if_neg hfb_ne]
  have hval : valMSB (emitNat (n / 10 ^ f) ++ fracBlock (n % 10 ^ f) f) = n := by
    rw [valMSB_append, hfb_len, emitNat_val, fracBlock, valMSB_pad, emitNat_val,
      Nat.mul_comm (n / 10 ^ f) (10 ^ f)]
    exact Nat.div_add_mod n (10 ^ f)
  rw [hval, hfb_len]

/-- One-step reduction of `scanNum` on nonempty input. -/
theorem scanNum_cons (c : Char) (r : List Char) :
    scanNum (c :: r) =
      if c = '-' then (scanUNum r).map (fun p => (⟨-(p.1.1 : Int), p.1.2⟩, p.2))
      else (scanUNum (c :: r)).map (fun p => (⟨(p.1.1 : Int), p.1.2⟩, p.2)) := rfl

/-- The number scan inverts the number serializer at any value boundary. -/
theorem scanNum_emit (x : JNum) {rest : List Char} (hb : boundary rest = true) :
    scanNum (emitNum x ++ rest) = some (x, rest) := by
  obtain ⟨m, f⟩ := x
  have hns := boundary_numStop hb
  simp only [emitNum]
  by_cases hf : f = 0
  · subst hf
    rw [if_pos rfl, emitInt]
    by_cases hm : m < 0
    · rw [if_pos hm, List.cons_append, scanNum_cons, if_pos rfl, scanUNum_nat m.natAbs hns]
      simp only [Option.map_some']
      have hcast : -((m.natAbs : Int)) = m := by omega
      rw [hcast]
    · rw [if_neg hm]
      obtain ⟨c, t, he, hc⟩ := emitNat_cons m.natAbs
      rw [he, List.cons_append, scanNum_cons, if_neg (ne_of_isDig hc (by decide) : c ≠ '-'),
        ← List.cons_append, ← he, scanUNum_nat m.natAbs hns]
      simp only [Option.map_some']
      have hcast : ((m.natAbs : Int)) = m := by omega
      rw [hcast]
  · rw [if_neg hf]
    by_cases hm : m < 0
    · rw [if_pos hm, List.singleton_append, List.cons_append, List.cons_append, scanNum_cons,
        if_pos rfl, scanUNum_frac m.natAbs f hf hns]
      simp only [Option.map_some']
      have hcast : -((m.natAbs : Int)) = m := by omega
      rw [hcast]
    · rw [if_neg hm, List.nil_append]
      obtain ⟨c, t, he, hc⟩ := emitNat_cons (m.natAbs / 10 ^ f)
      rw [he, List.cons_append, List.cons_append, scanNum_cons,
        if_neg (ne_of_isDig hc (by decide) : c ≠ '-'),
        ← List.cons_append, ← List.cons_append, ← he, scanUNum_frac m.natAbs f hf hns]
      simp only [Option.map_some']
      have hcast : ((m.natAbs : Int)) = m := by omega
      rw [hcast]

/-! ## Round trip, step 2: strings -/

/-- Hex digit characters decode to their values. -/
theorem hexValC_hexDigitChar {n : Nat} (h : n < 16) : hexValC (hexDigitChar n) = some n := by
  interval_cases n <;> decide

/-- One-step reduction of `scanStr` on nonempty input. -/
theorem scanStr_cons (c : Char) (rest : List Char) :
    scanStr (c :: rest) =
      if c = '"' then some ([], rest)
      else if c = '\\' then scanEsc rest
      else if c.toNat < 32 then none
      else (scanStr rest).map (fun p => (c :: p.1, p.2)) := rfl

/-- Scanning one escaped character undoes the escape. -/
theorem scanStr_esc (c : Char) (tail : List Char) :
    scanStr (escChar c ++ tail) = (scanStr tail).map (fun p => (c :: p.1, p.2)) := by
  by_cases h1 : c = '"'
  · subst h1; rfl
  by_cases h2 : c = '\\'
  · subst h2; rfl
  by_cases h3 : c = '\x08'
  · subst h3; rfl
  by_cases h4 : c = '\t'
  · subst h4; rfl
  by_cases h5 : c = '\n'
  · subst h5; rfl
  by_cases h6 : c = '\x0c'
  · subst h6; rfl
  by_cases h7 : c = '\r'
  · subst h7; rfl
  rw [escChar, if_neg h1, if_neg h2, if_neg h3, if_neg h4, if_neg h5, if_neg h6, if_neg h7]
  by_cases h8 : c.toNat < 32
  · rw [if_pos h8]
    show scanStr ('\\' :: 'u' :: '0' :: '0' :: hexDigitChar (c.toNat / 16) ::
      hexDigitChar (c.toNat % 16) :: tail) = _
    rw [scanStr_cons, if_neg (by decide), if_pos rfl]
    show scanEsc ('u' :: '0' :: '0' :: hexDigitChar (c.toNat / 16) ::
      hexDigitChar (c.toNat % 16) :: tail) = _
    have hv1 : hexValC (hexDigitChar (c.toNat / 16)) = some (c.toNat / 16) :=
      hexValC_hexDigitChar (by omega)
    have hv2 : hexValC (hexDigitChar (c.toNat % 16)) = some (c.toNat % 16) :=
      hexValC_hexDigitChar (by omega)
    simp only [scanEsc, hv1, hv2, show hexValC '0' = some 0 from rfl]
    have harith : ((0 * 16 + 0) * 16 + c.toNat / 16) * 16 + c.toNat % 16 = c.toNat := by omega
    rw [harith, Char.ofNat_toNat]
  · rw [if_neg h8]
    show scanStr (c :: tail) = _
    rw [scanStr_cons, if_neg h1, if_neg h2, if_neg h8]

/-- Scanning an escaped body stops at the closing quote and recovers the
content. -/
theorem scanStr_body :
    ∀ (l : List Char) (tail : List Char),
      scanStr (l.flatMap escChar ++ ('"' :: tail)) = some (l, tail) := by
  intro l
  induction l with
  | nil => intro tail; rfl
  | cons c l ih =>
    intro tail
    rw [List.flatMap_cons, List.append_assoc, scanStr_esc, ih]
    rfl

/-! ## Round trip, step 3: whole values -/

/-- `emitNum` in head-tail form: the head is a sign or a digit. -/
theorem emitNum_cons (x : JNum) :
    ∃ c t, emitNum x = c :: t ∧ (c = '-' ∨ isDig c = true) := by
  obtain ⟨m, f⟩ := x
  simp only [emitNum]
  by_cases hf : f = 0
  · subst hf
    rw [if_pos rfl, emitInt]
    by_cases hm : m < 0
    · rw [if_pos hm]
      exact ⟨'-', _, rfl, Or.inl rfl⟩
    · rw [if_neg hm]
      obtain ⟨c, t, he, hc⟩ := emitNat_cons m.natAbs
      exact ⟨c, t, he, Or.inr hc⟩
  · rw [if_neg hf]
    by_cases hm : m < 0
    · rw [if_pos hm, List.singleton_append, List.cons_append]
      exact ⟨'-', _, rfl, Or.inl rfl⟩
    · rw [if_neg hm, List.nil_append]
      obtain ⟨c, t, he, hc⟩ := emitNat_cons (m.natAbs / 10 ^ f)
      exact ⟨c, _, by rw [he, List.cons_append], Or.inr hc⟩

/-- Every serialized value starts with a character that is not whitespace and
closes nothing. -/
theorem emit_head (j : Json) :
    ∃ c t, emit j = c :: t ∧ isJsonWs c = false ∧ c ≠ ']' ∧ c ≠ '\x7d' := by
  cases j with
  | null => exact ⟨'n', _, rfl, rfl, by decide, by decide⟩
  | bool b => cases b with
    | true => exact ⟨'t', _, rfl, rfl, by decide, by decide⟩
    | false => exact ⟨'f', _, rfl, rfl, by decide, by decide⟩
  | str s => exact ⟨'"', _, rfl, rfl, by decide, by decide⟩
  | arr es => exact ⟨'[', _, rfl, rfl, by decide, by decide⟩
  | obj fs => exact ⟨'\x7b', _, rfl, rfl, by decide, by decide⟩
  | num x =>
    obtain ⟨c, t, he, hc⟩ := emitNum_cons x
    refine ⟨c, t, he, ?_, ?_, ?_⟩
    · rcases hc with h | h
      · subst h; rfl
      · exact isDig_not_ws h
    · rcases hc with h | h
      · subst h; decide
      · exact ne_of_isDig h (by decide)
    · rcases hc with h | h
      · subst h; decide
      · exact ne_of_isDig h (by decide)

/-- A serialized item list starts like its first value. -/
theorem emitItems_head (e : Json) (es : List Json) :
    ∃ c t, emitItems (e :: es) = c :: t ∧ isJsonWs c = false ∧ c ≠ ']' := by
  obtain ⟨c, t, he, hws, hbr, _⟩ := emit_head e
  cases es with
  | nil => exact ⟨c, t, he, hws, hbr⟩
  | cons e2 es => exact ⟨c, _, by rw [emitItems, he, List.cons_append], hws, hbr⟩

/-- Leading whitespace removal is the identity on serialized output. -/
theorem wsDrop_emit (j : Json) (x : List Char) : wsDrop (emit j ++ x) = emit j ++ x := by
  obtain ⟨c, t, he, hws, _, _⟩ := emit_head j
  rw [he, List.cons_append]
  exact wsDrop_cons hws

/-- The array branch of the parser takes the nonempty path whenever the inner
input does not open with the closing bracket. -/
theorem arrStep (f : Nat) (c : Char) (t : List Char) (hc : c ≠ ']') :
    (match c :: t with
     | ']' :: r2 => some (Json.arr [], r2)
     | r2 => (parseItems f r2).map (fun p => (Json.arr p.1, p.2))) =
      (parseItems f (c :: t)).map (fun p => (Json.arr p.1, p.2)) := by
  split
  · rename_i heq
    exact absurd (List.head_eq_of_cons_eq heq.symm).symm hc
  · rfl

/-- The object branch analogue of `arrStep`. -/
theorem objStep (f : Nat) (c : Char) (t : List Char) (hc : c ≠ '\x7d') :
    (match c :: t with
     | '\x7d' :: r2 => some (Json.obj [], r2)
     | r2 => (parseFields f r2).map (fun p => (Json.obj p.1, p.2))) =
      (parseFields f (c :: t)).map (fun p => (Json.obj p.1, p.2)) := by
  split
  · rename_i heq
    exact absurd (List.head_eq_of_cons_eq heq.symm).symm hc
  · rfl

/-- One-step reduction of `parseVal` at successor fuel once the head of the
whitespace-stripped input is known. -/
theorem parseVal_head (f : Nat) {cs : List Char} {c : Char} {r : List Char}
    (h : wsDrop cs = c :: r) :
    parseVal (f + 1) cs =
      (if c = 'n' then (afterLit ['u', 'l', 'l'] r).map (fun r2 => (Json.null, r2))
      else if c = 't' then (afterLit ['r', 'u', 'e'] r).map (fun r2 => (Json.bool true, r2))
      else if c = 'f' then (afterLit ['a', 'l', 's', 'e'] r).map (fun r2 => (Json.bool false, r2))
      else if c = '"' then (scanStr r).map (fun p => (Json.str (String.mk p.1), p.2))
      else if c = '[' then
        (match wsDrop r with
         | ']' :: r2 => some (Json.arr [], r2)
         | r2 => (parseItems f r2).map (fun p => (Json.arr p.1, p.2)))
      else if c = '\x7b' then
        (match wsDrop r with
         | '\x7d' :: r2 => some (Json.obj [], r2)
         | r2 => (parseFields f r2).map (fun p => (Json.obj p.1, p.2)))
      else if c = '-' || isDig c then (scanNum (c :: r)).map (fun p => (Json.num p.1, p.2))
      else none) := by
  simp only [parseVal]
  rw [h]

/-- One-step reduction of `parseFields` at successor fuel once the
whitespace-stripped input is known to open a key. -/
theorem parseFields_quote (f : Nat) {cs r : List Char} (h : wsDrop cs = '"' :: r) :
    parseFields (f + 1) cs =
      (match scanStr r with
       | none => none
       | some (k, r1) =>
         match wsDrop r1 with
         | ':' :: r2 =>
           (match parseVal f r2 with
            | none => none
            | some (v, r3) =>
              match wsDrop r3 with
              | ',' :: r4 => (parseFields f r4).map (fun p => ((String.mk k, v) :: p.1, p.2))
              | '\x7d' :: r4 => some ([(String.mk k, v)], r4)
              | _ => none)
         | _ => none) := by
  simp only [parseFields]
  rw [h]
  rfl

mutual

/-- Parsing a serialized value at sufficient fuel recovers it and leaves the
boundary continuation untouched. -/
theorem rtV : ∀ (j : Json) (f : Nat) (rest : List Char),
    (emit j).length < f → boundary rest = true →
    parseVal f (emit j ++ rest) = some (j, rest)
  | .null, f, rest, hf, _ => by
    cases f with
    | zero => exact absurd hf (by omega)
    | succ f => rfl
  | .bool true, f, rest, hf, _ => by
    cases f with
    | zero => exact absurd hf (by omega)
    | succ f => rfl
  | .bool false, f, rest, hf, _ => by
    cases f with
    | zero => exact absurd hf (by omega)
    | succ f => rfl
  | .num x, f, rest, hf, hb => by
    cases f with
    | zero => exact absurd hf (by omega)
    | succ f =>
      obtain ⟨c, t, he, hc⟩ := emitNum_cons x
      have hws : isJsonWs c = false := by
        rcases hc with h | h
        · subst h; rfl
        · exact isDig_not_ws h
      have h1 : wsDrop (emit (Json.num x) ++ rest) = c :: (t ++ rest) := by
        show wsDrop (emitNum x ++ rest) = _
        rw [he, List.cons_append]
        exact wsDrop_cons hws
      have hn : c ≠ 'n' := by
        rcases hc with h | h
        · subst h; decide
        · exact ne_of_isDig h (by decide)
      have ht : c ≠ 't' := by
        rcases hc with h | h
        · subst h; decide
        · exact ne_of_isDig h (by decide)
      have hf2 : c ≠ 'f' := by
        rcases hc with h | h
        · subst h; decide
        · exact ne_of_isDig h (by decide)
      have hq : c ≠ '"' := by
        rcases hc with h | h
        · subst h; decide
        · exact ne_of_isDig h (by decide)
      have hk : c ≠ '[' := by
        rcases hc with h | h
        · subst h; decide
        · exact ne_of_isDig h (by decide)
      have hbr2 : c ≠ '\x7b' := by
        rcases hc with h | h
        · subst h; decide
        · exact ne_of_isDig h (by decide)
      have hg : (c = '-' || isDig c) = true := by
        rcases hc with h | h
        · simp [h]
        · simp [h]
      rw [parseVal_head f h1, if_neg hn, if_neg ht, if_neg hf2, if_neg hq, if_neg hk,
        if_neg hbr2, if_pos hg, ← List.cons_append, ← he, scanNum_emit x hb,
        Option.map_some']
  | .str s, f, rest, hf, _ => by
    cases f with
    | zero => exact absurd hf (by omega)
    | succ f =>
      have hsh : emit (Json.str s) ++ rest = '"' :: (emitStrBody s ++ ('"' :: rest)) := by
        show ('"' :: (emitStrBody s ++ ['"'])) ++ rest = _
        simp
      rw [hsh]
      have hred : parseVal (f + 1) ('"' :: (emitStrBody s ++ ('"' :: rest)))
          = (scanStr (emitStrBody s ++ ('"' :: rest))).map
              (fun p => (Json.str (String.mk p.1), p.2)) := rfl
      rw [hred, emitStrBody, scanStr_body, Option.map_some']
  | .arr [], f, rest, hf, _ => by
    cases f with
    | zero => exact absurd hf (by omega)
    | succ f => rfl
  | .arr (e :: es), f, rest, hf, hb => by
    cases f with
    | zero => exact absurd hf (by omega)
    | succ f =>
      obtain ⟨c, t, hei, hws, hbr⟩ := emitItems_head e es
      have h1 : wsDrop (emit (Json.arr (e :: es)) ++ rest)
          = '[' :: ((emitItems (e :: es) ++ [']']) ++ rest) := rfl
      have hlen : (emitItems (e :: es)).length + 1 < f := by
        have h := hf
        simp only [show emit (Json.arr (e :: es)) = '[' :: (emitItems (e :: es) ++ [']'])
          from rfl, List.length_cons, List.length_append, List.length_singleton] at h
        omega
      rw [parseVal_head f h1, if_neg (by decide), if_neg (by decide), if_neg (by decide),
        if_neg (by decide), if_pos rfl]
      have hsh : (emitItems (e :: es) ++ [']']) ++ rest = c :: (t ++ (']' :: rest)) := by
        rw [List.append_assoc, List.singleton_append, hei, List.cons_append]
      rw [hsh, wsDrop_cons hws, arrStep f c _ hbr]
      have hback : c :: (t ++ (']' :: rest)) = emitItems (e :: es) ++ (']' :: rest) := by
        rw [hei, List.cons_append]
      rw [hback, rtItems e es f rest hlen, Option.map_some']
  | .obj [], f, rest, hf, _ => by
    cases f with
    | zero => exact absurd hf (by omega)
    | succ f => rfl
  | .obj ((k, v) :: fs), f, rest, hf, hb => by
    cases f with
    | zero => exact absurd hf (by omega)
    | succ f =>
      have h1 : wsDrop (emit (Json.obj ((k, v) :: fs)) ++ rest)
          = '\x7b' :: ((emitFields ((k, v) :: fs) ++ ['\x7d']) ++ rest) := rfl
      have hlen : (emitFields ((k, v) :: fs)).length + 1 < f := by
        have h := hf
        simp only [show emit (Json.obj ((k, v) :: fs))
          = '\x7b' :: (emitFields ((k, v) :: fs) ++ ['\x7d']) from rfl,
          List.length_cons, List.length_append, List.length_singleton] at h
        omega
      obtain ⟨T, hT⟩ : ∃ T, emitFields ((k, v) :: fs) = '"' :: T := by
        cases fs with
        | nil => exact ⟨_, rfl⟩
        | cons f2 fs => exact ⟨_, rfl⟩
      rw [parseVal_head f h1, if_neg (by decide), if_neg (by decide), if_neg (by decide),
        if_neg (by decide), if_neg (by decide), if_pos rfl]
      have hsh : (emitFields ((k, v) :: fs) ++ ['\x7d']) ++ rest
          = '"' :: (T ++ ('\x7d' :: rest)) := by
        rw [List.append_assoc, List.singleton_append, hT, List.cons_append]
      rw [hsh, wsDrop_cons (show isJsonWs '"' = false from rfl), objStep f '"' _ (by decide)]
      have hback : '"' :: (T ++ ('\x7d' :: rest))
          = emitFields ((k, v) :: fs) ++ ('\x7d' :: rest) := by
        rw [hT, List.cons_append]
      rw [hback, rtFields (k, v) fs f rest hlen, Option.map_some']

/-- Parsing serialized items up to the closing bracket recovers the list. -/
theorem rtItems : ∀ (e : Json) (es : List Json) (f : Nat) (rest : List Char),
    (emitItems (e :: es)).length + 1 < f →
    parseItems f (emitItems (e :: es) ++ (']' :: rest)) = some (e :: es, rest)
  | e, [], f, rest, hf => by
    cases f with
    | zero => exact absurd hf (by omega)
    | succ f =>
      have hlen : (emit e).length < f := by
        have h := hf
        simp only [show emitItems [e] = emit e from rfl] at h
        omega
      have hv := rtV e f (']' :: rest) hlen rfl
      show parseItems (f + 1) (emit e ++ (']' :: rest)) = some ([e], rest)
      have hstep : parseItems (f + 1) (emit e ++ (']' :: rest))
          = (match parseVal f (emit e ++ (']' :: rest)) with
             | none => none
             | some (v, r) =>
               match wsDrop r with
               | ',' :: r2 => (parseItems f r2).map (fun p => (v :: p.1, p.2))
               | ']' :: r2 => some ([v], r2)
               | _ => none) := rfl
      rw [hstep, hv]
      rfl
  | e, e2 :: es, f, rest, hf => by
    cases f with
    | zero => exact absurd hf (by omega)
    | succ f =>
      have hlen1 : (emit e).length < f := by
        have h := hf
        simp only [show emitItems (e :: e2 :: es) = emit e ++ (',' :: emitItems (e2 :: es))
          from rfl, List.length_append, List.length_cons] at h
        omega
      have hlen2 : (emitItems (e2 :: es)).length + 1 < f := by
        have h := hf
        simp only [show emitItems (e :: e2 :: es) = emit e ++ (',' :: emitItems (e2 :: es))
          from rfl, List.length_append, List.length_cons] at h
        omega
      have hsh : emitItems (e :: e2 :: es) ++ (']' :: rest)
          = emit e ++ (',' :: (emitItems (e2 :: es) ++ (']' :: rest))) := by
        show (emit e ++ (',' :: emitItems (e2 :: es))) ++ (']' :: rest) = _
        rw [List.append_assoc, List.cons_append]
      have hv := rtV e f (',' :: (emitItems (e2 :: es) ++ (']' :: rest))) hlen1 rfl
      rw [hsh]
      have hstep : parseItems (f + 1) (emit e ++ (',' :: (emitItems (e2 :: es) ++ (']' :: rest))))
          = (match parseVal f (emit e ++ (',' :: (emitItems (e2 :: es) ++ (']' :: rest)))) with
             | none => none
             | some (v, r) =>
               match wsDrop r with
               | ',' :: r2 => (parseItems f r2).map (fun p => (v :: p.1, p.2))
               | ']' :: r2 => some ([v], r2)
               | _ => none) := rfl
      rw [hstep, hv]
      show (parseItems f (emitItems (e2 :: es) ++ (']' :: rest))).map
        (fun p => (e :: p.1, p.2)) = some (e :: e2 :: es, rest)
      rw [rtItems e2 es f rest hlen2, Option.map_some']

/-- Parsing serialized members up to the closing brace recovers the list. -/
theorem rtFields : ∀ (kv : String × Json) (fs : List (String × Json)) (f : Nat)
    (rest : List Char),
    (emitFields (kv :: fs)).length + 1 < f →
    parseFields f (emitFields (kv :: fs) ++ ('\x7d' :: rest)) = some (kv :: fs, rest)
  | (k, v), [], f, rest, hf => by
    cases f with
    | zero => exact absurd hf (by omega)
    | succ f =>
      have hlen : (emit v).length < f := by
        have h := hf
        simp only [show emitFields [(k, v)] = emitStr k ++ (':' :: emit v) from rfl,
          List.length_append, List.length_cons] at h
        omega
      have hsh : emitFields [(k, v)] ++ ('\x7d' :: rest)
          = '"' :: (k.data.flatMap escChar ++ ('"' :: (':' :: (emit v ++ ('\x7d' :: rest))))) := by
        show (emitStr k ++ (':' :: emit v)) ++ ('\x7d' :: rest) = _
        simp [emitStr, emitStrBody]
      have hv := rtV v f ('\x7d' :: rest) hlen rfl
      have hq : wsDrop ('"' :: (k.data.flatMap escChar ++ ('"' :: (':' :: (emit v
            ++ ('\x7d' :: rest)))))) = '"' :: (k.data.flatMap escChar ++ ('"' :: (':' :: (emit v
            ++ ('\x7d' :: rest))))) := wsDrop_cons rfl
      rw [hsh, parseFields_quote f hq, scanStr_body]
      show (match parseVal f (emit v ++ ('\x7d' :: rest)) with
            | none => none
            | some (v', r3) =>
              match wsDrop r3 with
              | ',' :: r4 => (parseFields f r4).map (fun p => ((String.mk k.data, v') :: p.1, p.2))
              | '\x7d' :: r4 => some ([(String.mk k.data, v')], r4)
              | _ => none) = some ([(k, v)], rest)
      rw [hv]
      rfl
  | (k, v), f2 :: fs, f, rest, hf => by
    cases f with
    | zero => exact absurd hf (by omega)
    | succ f =>
      have hexp : emitFields ((k, v) :: f2 :: fs)
          = emitStr k ++ (':' :: emit v) ++ (',' :: emitFields (f2 :: fs)) := rfl
      have hlen1 : (emit v).length < f := by
        have h := hf
        simp only [hexp, List.length_append, List.length_cons] at h
        omega
      have hlen2 : (emitFields (f2 :: fs)).length + 1 < f := by
        have h := hf
        simp only [hexp, List.length_append, List.length_cons] at h
        omega
      have hsh : emitFields ((k, v) :: f2 :: fs) ++ ('\x7d' :: rest)
          = '"' :: (k.data.flatMap escChar ++ ('"' :: (':' :: (emit v ++
              (',' :: (emitFields (f2 :: fs) ++ ('\x7d' :: rest))))))) := by
        rw [hexp]
        simp [emitStr, emitStrBody]
      have hv := rtV v f (',' :: (emitFields (f2 :: fs) ++ ('\x7d' :: rest))) hlen1 rfl
      have hq : wsDrop ('"' :: (k.data.flatMap escChar ++ ('"' :: (':' :: (emit v
            ++ (',' :: (emitFields (f2 :: fs) ++ ('\x7d' :: rest)))))))) = '"' ::
            (k.data.flatMap escChar ++ ('"' :: (':' :: (emit v
            ++ (',' :: (emitFields (f2 :: fs) ++ ('\x7d' :: rest))))))) := wsDrop_cons rfl
      rw [hsh, parseFields_quote f hq, scanStr_body]
      show (match parseVal f (emit v ++ (',' :: (emitFields (f2 :: fs) ++ ('\x7d' :: rest)))) with
            | none => none
            | some (v', r3) =>
              match wsDrop r3 with
              | ',' :: r4 => (parseFields f r4).map (fun p => ((String.mk k.data, v') :: p.1, p.2))
              | '\x7d' :: r4 => some ([(String.mk k.data, v')], r4)
              | _ => none) = some ((k, v) :: f2 :: fs, rest)
      rw [hv]
      show (parseFields f (emitFields (f2 :: fs) ++ ('\x7d' :: rest))).map
        (fun p => ((String.mk k.data, v) :: p.1, p.2)) = some ((k, v) :: f2 :: fs, rest)
      rw [rtFields f2 fs f rest hlen2, Option.map_some']

end

/-- The whole-document round trip: `JSON.parse` inverts `JSON.stringify`. -/
theorem parseDoc_emitJson (j : Json) : parseDoc (emitJson j) = some j := by
  have hlen : (emitJson j).length = (emit j).length := rfl
  have hv := rtV j ((emit j).length + 1) [] (by omega) rfl
  rw [List.append_nil] at hv
  rw [parseDoc]
  have hdata : (emitJson j).data = emit j := rfl
  rw [hlen, hdata, hv]
  rfl

/-! ## The persistence shim (`script.js` lines 42-61)

The single `localStorage` slot under the key `coupleQuestData` is an
`Option String` (`none` models `getItem` returning `null`). -/

/-- The defensive deep copy `JSON.parse(JSON.stringify(defaultData))` taken
when nothing usable is stored (`script.js` line 51). -/
def defaultCopy : Json := (parseDoc (emitJson (stateToJson defaultData))).getD Json.null

/-- The deep copy of the default state is structurally the default state. -/
theorem defaultCopy_eq : defaultCopy = stateToJson defaultData := by
  rw [defaultCopy, parseDoc_emitJson]
  rfl

/-- `getData` (source lines 42-52), parameterized by the parse function
applied to the stored blob: a falsy (absent or empty) stored value short
circuits `if (saved)` and is never handed to `JSON.parse`; a parse failure
is caught and falls back to the default copy. -/
def getDataWith (p : String → Option Json) (stored : Option String) : Json :=
  match stored with
  | some s => if s = "" then defaultCopy else (p s).getD defaultCopy
  | none => defaultCopy

/-- `getData` proper: the stored blob is parsed by the embedded `JSON.parse`. -/
def getData (stored : Option String) : Json := getDataWith parseDoc stored

/-! ## The DOM and the world

`Node` is the UI tree `render` rebuilds; `World` carries the application
state, the persistence slot plus the environment's write-success switch, the
mode flag, and the page-level pieces `render` touches directly, with
instrumentation counters for render calls, write attempts and logged
errors. -/

/-- A rendered DOM node: tag, attributes, children, or a text node. -/
inductive Node where
  | el (tag : String) (attrs : List (String × String)) (children : List Node)
  | text (s : String)

/-- One quest row (`script.js` lines 242-276): label with checkbox and text,
completed styling via the row class, and a delete button in edit mode. -/
def taskRow (mode : Bool) (t : Task) : Node :=
  Node.el "div" [("class", if t.completed then "quest-item completed" else "quest-item")]
    ([Node.el "label" []
        [ Node.el "input" [("type", "checkbox"), ("checked", if t.completed then "true" else "false")] []
        , Node.el "span" [] [Node.text t.text] ]] ++
      (if mode then [Node.el "button" [("class", "delete-btn")] [Node.text "Delete"]] else []))

/-- One category section (`createCategorySection`, lines 211-302): title
(input in edit mode), quest list, and the add-quest controls in edit mode.
The index maps into `data.sections`. -/
def categorySection (d : AppState) (mode : Bool) (idx : Nat) : Node :=
  let sectionData := (d.sections[idx]?).getD ⟨"", []⟩
  Node.el "div" []
    ([ Node.el "h2" [("class", "category-title")]
        (if mode then
          [Node.el "input"
            [("type", "text"), ("value", sectionData.title), ("placeholder", "Category name")] []]
         else [Node.text sectionData.title])
     , Node.el "div" [("class", "quest-list")] (sectionData.tasks.map (taskRow mode)) ] ++
      (if mode then
        [Node.el "div" [("class", "add-container")]
          [ Node.el "input" [("type", "text"), ("placeholder", "Add new quest...")] []
          , Node.el "button" [] [Node.text "Add"] ]]
       else []))

/-- The hero block (lines 102-187): names and tagline as inputs or static
text, plus the background picker and overlay slider in edit mode. -/
def heroView (d : AppState) (mode : Bool) : Node :=
  Node.el "div" [("style", "center")]
    ((if mode then
        [Node.el "input" [("type", "text"), ("value", d.names), ("placeholder", "Enter your names")] []]
      else [Node.el "h1" [] [Node.text d.names]]) ++
     (if mode then
        [Node.el "input" [("type", "text"), ("value", d.tagline), ("placeholder", "Enter your tagline")] []]
      else [Node.el "p" [("class", "tagline")] [Node.text d.tagline]]) ++
     (if mode then
        [Node.el "div" [("class", "edit-container")]
          [ Node.el "input" [("type", "file"), ("accept", "image/*")] []
          , Node.el "div" [("class", "range-container")]
              [ Node.el "label" [] [Node.text "Overlay darkness"]
              , Node.el "input"
                  [ ("type", "range"), ("min", "0"), ("max", "0.9"), ("step", "0.05")
                  , ("value", String.mk (emitNum d.overlay)) ] [] ] ]]
      else []))

/-- The whole tree `render` mounts into `#app` (lines 86-200): the floating
mode button, then two page sections. -/
def buildView (d : AppState) (mode : Bool) : Node :=
  Node.el "div" [("id", "app")]
    [ Node.el "button" [("class", "toggle-btn")] [Node.text (if mode then "Done" else "Edit")]
    , Node.el "main" []
        [ Node.el "section" [] [heroView d mode, categorySection d mode 0]
        , Node.el "section" [] [categorySection d mode 1] ] ]

/-- The world: state, persistence, mode, and the page-level DOM pieces. -/
structure World where
  data : AppState
  storage : Option String
  persistOk : Bool
  editMode : Bool
  appTree : Option Node
  overlayCount : Nat
  overlayOpacity : JNum
  bodyBackground : String
  renders : Nat
  writeAttempts : Nat
  errorsLogged : Nat

/-- `saveData` (lines 55-61): one `setItem` attempt writing the serialized
state; when the environment rejects the write the exception is caught and
logged, nothing is retried, and neither the state nor the stored blob
changes.  The function is total: no exception escapes to the caller. -/
def saveDataW (w : World) : World :=
  if w.persistOk then
    { w with
      storage := some (emitJson (stateToJson w.data))
      writeAttempts := w.writeAttempts + 1 }
  else
    { w with
      writeAttempts := w.writeAttempts + 1
      errorsLogged := w.errorsLogged + 1 }

/-- `render` (lines 68-201): sets the body background, removes the first
existing `.overlay` element if any and inserts a fresh one with the current
opacity, and rebuilds the whole `#app` tree from the state and mode. -/
def renderW (w : World) : World :=
  { w with
    bodyBackground := w.data.background
    overlayCount := (if 1 ≤ w.overlayCount then w.overlayCount - 1 else w.overlayCount) + 1
    overlayOpacity := w.data.overlay
    appTree := some (buildView w.data w.editMode)
    renders := w.renders + 1 }

/-- In-place update of the element at one position, the image of a JS
indexed mutation such as `data.sections[idx].title = ...`. -/
def mapAt {α : Type} : List α → Nat → (α → α) → List α
  | [], _, _ => []
  | x :: xs, 0, f => f x :: xs
  | x :: xs, n + 1, f => x :: mapAt xs n f

/-! ## The event handlers (state-mutating closures wired up by `render`) -/

/-- The mode toggle (lines 90-93): flip the flag and re-render. -/
def toggleBtnOnclick (w : World) : World :=
  renderW { w with editMode := !w.editMode }

/-- The names editor commit (lines 112-115): `data.names = e.target.value
|| ''`, then persist.  No re-render. -/
def namesInputOnchange (w : World) (value : String) : World :=
  saveDataW { w with data := { w.data with names := jsOrEmpty value } }

/-- The tagline editor commit (lines 129-132). -/
def taglineInputOnchange (w : World) (value : String) : World :=
  saveDataW { w with data := { w.data with tagline := jsOrEmpty value } }

/-- The overlay slider (lines 178-182): store the delivered value, restyle
the live overlay element directly, persist.  No re-render. -/
def rangeInputOninput (w : World) (v : JNum) : World :=
  let w1 := { w with data := { w.data with overlay := v } }
  let w2 := { w1 with overlayOpacity := v }
  saveDataW w2

/-- The category title commit (lines 228-231). -/
def titleInputOnchange (w : World) (idx : Nat) (value : String) : World :=
  saveDataW
    { w with
      data :=
        { w.data with
          sections := mapAt w.data.sections idx (fun sec => { sec with title := jsOrEmpty value }) } }

/-- The completion checkbox (lines 252-256): write the delivered checked
flag into the task, persist, re-render. -/
def checkboxOnchange (w : World) (idx ti : Nat) (checked : Bool) : World :=
  renderW (saveDataW
    { w with
      data :=
        { w.data with
          sections := mapAt w.data.sections idx
            (fun sec =>
              { sec with
                tasks := mapAt sec.tasks ti (fun t => { t with completed := checked }) }) } })

/-- The delete button (lines 268-272): `splice(taskIndex, 1)`, persist,
re-render. -/
def delBtnOnclick (w : World) (idx ti : Nat) : World :=
  renderW (saveDataW
    { w with
      data :=
        { w.data with
          sections := mapAt w.data.sections idx
            (fun sec => { sec with tasks := sec.tasks.eraseIdx ti }) } })

/-- The add button (lines 288-296): trim the input; when truthy, push a new
uncompleted task, persist and re-render; otherwise do nothing at all. -/
def addBtnOnclick (w : World) (idx : Nat) (inputValue : String) : World :=
  let text := jsTrim inputValue
  if text ≠ "" then
    renderW (saveDataW
      { w with
        data :=
          { w.data with
            sections := mapAt w.data.sections idx
              (fun sec => { sec with tasks := sec.tasks ++ [⟨text, false⟩] }) } })
  else w

/-- A concrete fresh-page world used by the witnesses: default state, empty
storage, view mode, nothing rendered yet. -/
def initialWorld : World :=
  { data := defaultData
    storage := none
    persistOk := true
    editMode := false
    appTree := none
    overlayCount := 0
    overlayOpacity := ⟨6, 1⟩
    bodyBackground := ""
    renders := 0
    writeAttempts := 0
    errorsLogged := 0 }

/-! ## Facts about indexed update and removal -/

/-- `mapAt` keeps the length. -/
theorem mapAt_length {α : Type} :
    ∀ (l : List α) (i : Nat) (f : α → α), (mapAt l i f).length = l.length
  | [], _, _ => rfl
  | _ :: xs, 0, f => rfl
  | x :: xs, n + 1, f => by simp [mapAt, mapAt_length xs n f]

/-- `mapAt` applies the function at the updated position. -/
theorem mapAt_getElem_eq {α : Type} :
    ∀ (l : List α) (i : Nat) (f : α → α), (mapAt l i f)[i]? = (l[i]?).map f
  | [], _, _ => by simp [mapAt]
  | x :: xs, 0, f => by simp [mapAt]
  | x :: xs, n + 1, f => by
    simpa [mapAt] using mapAt_getElem_eq xs n f

/-- `mapAt` leaves every other position alone. -/
theorem mapAt_getElem_ne {α : Type} :
    ∀ (l : List α) (i : Nat) (f : α → α) (j : Nat), j ≠ i → (mapAt l i f)[j]? = l[j]?
  | [], _, _, _, _ => by simp [mapAt]
  | x :: xs, 0, f, 0, hj => absurd rfl hj
  | x :: xs, 0, f, j + 1, _ => by simp [mapAt]
  | x :: xs, n + 1, f, 0, _ => by simp [mapAt]
  | x :: xs, n + 1, f, j + 1, hj => by
    simpa [mapAt] using mapAt_getElem_ne xs n f j (by omega)

/-- Removal at a valid position shortens the list by one. -/
theorem eraseIdx_len {α : Type} (l : List α) (i : Nat) (h : i < l.length) :
    (l.eraseIdx i).length = l.length - 1 := by
  rw [List.eraseIdx_eq_take_drop_succ, List.length_append, List.length_take, List.length_drop]
  omega

/-- Positions before the removed one are untouched. -/
theorem eraseIdx_get_lt {α : Type} (l : List α) (i j : Nat) (hj : j < i) :
    (l.eraseIdx i)[j]? = l[j]? := by
  rw [List.eraseIdx_eq_take_drop_succ]
  by_cases hi : i ≤ l.length
  · rw [List.getElem?_append_left (by rw [List.length_take]; omega)]
    exact List.getElem?_take_of_lt hj
  · rw [List.take_of_length_le (by omega), List.drop_of_length_le (by omega), List.append_nil]

/-- Positions from the removed one on shift down by one. -/
theorem eraseIdx_get_ge {α : Type} (l : List α) (i j : Nat) (hi : i < l.length) (hj : i ≤ j) :
    (l.eraseIdx i)[j]? = l[j + 1]? := by
  rw [List.eraseIdx_eq_take_drop_succ,
    List.getElem?_append_right (by rw [List.length_take]; omega), List.getElem?_drop,
    List.length_take]
  congr 1
  omega

/-- A successful index lookup bounds the index. -/
theorem lt_of_getElem?_eq_some {α : Type} {l : List α} {i : Nat} {x : α}
    (h : l[i]? = some x) : i < l.length := by
  by_contra hc
  rw [List.getElem?_eq_none (by omega)] at h
  cases h

/-- A serialized state is never the empty string (it opens with a brace), so
it is always truthy for `getData`. -/
theorem emitJson_state_ne_empty (S : AppState) : emitJson (stateToJson S) ≠ "" := by
  intro he
  have hdata : (emitJson (stateToJson S)).data
      = '\x7b' :: (emitFields
          [ ("names", Json.str S.names)
          , ("tagline", Json.str S.tagline)
          , ("background", Json.str S.background)
          , ("overlay", Json.num S.overlay)
          , ("sections", Json.arr (S.sections.map categoryToJson)) ] ++ ['\x7d']) := rfl
  rw [he] at hdata
  cases hdata

/-! ## The claims -/

/-- C1: for any AppState `S`, saving `S` with `saveData` and then loading
with `getData` yields a JS value deep-equal to `S`: the loaded JSON tree is
exactly `stateToJson S`, the tree of `S`, whatever was stored before.  Deep
equality of the JSON-grade values the app stores is equality of their trees,
so the round trip through string serialization under the persistence key
preserves the full state. -/
theorem C1_save_load_roundtrip (S : AppState) (w : World) (hok : w.persistOk = true) :
    getData (saveDataW { w with data := S }).storage = stateToJson S := by
  rw [saveDataW]
  simp only [hok, if_true]
  show getData (some (emitJson (stateToJson S))) = stateToJson S
  rw [getData, getDataWith, if_neg (emitJson_state_ne_empty S), parseDoc_emitJson]
  rfl

/-- C1 witness: the round trip at the default state from a fresh world. -/
theorem C1_witness :
    initialWorld.persistOk = true ∧
    getData (saveDataW { initialWorld with data := defaultData }).storage
      = stateToJson defaultData :=
  ⟨rfl, C1_save_load_roundtrip defaultData initialWorld rfl⟩

/-- C2: whenever the persisted slot is absent or holds a string the parser
rejects (not valid JSON), `getData` returns — without any exception escaping,
the parse model being total — a state structurally equal to the built-in
default: two categories titled Travel Adventures and Personal Goals, four
tasks each, every task uncompleted, and overlay `0.6`. -/
theorem C2_fallback_default (stored : Option String)
    (h : stored = none ∨ ∃ s, stored = some s ∧ parseDoc s = none) :
    getData stored = stateToJson defaultData ∧
    defaultData.sections.map Category.title = ["Travel Adventures", "Personal Goals"] ∧
    (∀ c ∈ defaultData.sections, c.tasks.length = 4 ∧ ∀ t ∈ c.tasks, t.completed = false) ∧
    defaultData.overlay = ⟨6, 1⟩ := by
  refine ⟨?_, by decide, by decide, rfl⟩
  rcases h with h | ⟨s, hs, hp⟩
  · rw [h, getData, getDataWith, defaultCopy_eq]
  · rw [hs, getData, getDataWith]
    by_cases he : s = ""
    · rw [if_pos he, defaultCopy_eq]
    · rw [if_neg he, hp, Option.getD_none, defaultCopy_eq]

/-- C2 witness: a concrete non-JSON blob falls back to the default state. -/
theorem C2_witness :
    parseDoc "\x7boops" = none ∧
    getData (some "\x7boops") = stateToJson defaultData :=
  have hp : parseDoc "\x7boops" = none := Option.isNone_iff_eq_none.mp (by decide)
  ⟨hp, (C2_fallback_default (some "\x7boops") (Or.inr ⟨"\x7boops", rfl, hp⟩)).1⟩

/-- C9: when the persistence write fails, `saveData` swallows the failure
(the embedded function is total, so nothing is thrown to the caller), logs
exactly one error, attempts exactly one write with no retry, and leaves both
the in-memory AppState and the previously stored blob exactly as they were. -/
theorem C9_save_failure (w : World) (hfail : w.persistOk = false) :
    (saveDataW w).data = w.data ∧
    (saveDataW w).storage = w.storage ∧
    (saveDataW w).errorsLogged = w.errorsLogged + 1 ∧
    (saveDataW w).writeAttempts = w.writeAttempts + 1 ∧
    (saveDataW w).editMode = w.editMode ∧
    (saveDataW w).appTree = w.appTree := by
  rw [saveDataW]
  simp [hfail]

/-- C9 witness: a failing write from the fresh world changes nothing but the
error log and the attempt counter. -/
theorem C9_witness :
    ({ initialWorld with persistOk := false } : World).persistOk = false ∧
    (saveDataW { initialWorld with persistOk := false }).data = initialWorld.data ∧
    (saveDataW { initialWorld with persistOk := false }).storage = initialWorld.storage :=
  have h := C9_save_failure { initialWorld with persistOk := false } rfl
  ⟨rfl, h.1, h.2.1⟩

/-- C10: a falsy stored blob (absent slot or the empty string) is treated as
absent storage: the result never consults the parse function applied to the
stored blob — it is the same for every such function — and equals the
defensive deep copy of the default literal, which is structurally the
default state.  Mutating the returned copy can therefore never alter the
default literal, which the model renders as the copy being a separate value
structurally equal to `stateToJson defaultData`. -/
theorem C10_falsy_never_parsed (p : String → Option Json) (stored : Option String)
    (h : stored = none ∨ stored = some "") :
    getDataWith p stored = stateToJson defaultData ∧
    getData stored = stateToJson defaultData := by
  rcases h with h | h
  · subst h
    exact ⟨defaultCopy_eq, defaultCopy_eq⟩
  · subst h
    rw [getDataWith, if_pos rfl, getData, getDataWith, if_pos rfl]
    exact ⟨defaultCopy_eq, defaultCopy_eq⟩

/-- C10 witness: the empty-string blob under a parse function that rejects
everything still loads as the default copy. -/
theorem C10_witness :
    getDataWith (fun _ => none) (some "") = stateToJson defaultData ∧
    getData (some "") = stateToJson defaultData :=
  C10_falsy_never_parsed (fun _ => none) (some "") (Or.inr rfl)

/-! ## Projection facts for save and render -/

/-- Saving never changes the in-memory state. -/
theorem saveDataW_data (w : World) : (saveDataW w).data = w.data := by
  rw [saveDataW]; split <;> rfl

/-- A successful save stores the serialized current state. -/
theorem saveDataW_storage_ok (w : World) (h : w.persistOk = true) :
    (saveDataW w).storage = some (emitJson (stateToJson w.data)) := by
  rw [saveDataW, if_pos h]

/-- Saving never touches the live overlay element. -/
theorem saveDataW_opacity (w : World) : (saveDataW w).overlayOpacity = w.overlayOpacity := by
  rw [saveDataW]; split <;> rfl

/-- Saving never renders. -/
theorem saveDataW_renders (w : World) : (saveDataW w).renders = w.renders := by
  rw [saveDataW]; split <;> rfl

/-- Saving never rebuilds the tree. -/
theorem saveDataW_appTree (w : World) : (saveDataW w).appTree = w.appTree := by
  rw [saveDataW]; split <;> rfl

/-- Rendering never changes the in-memory state. -/
theorem renderW_data (w : World) : (renderW w).data = w.data := rfl

/-- Rendering never writes to storage. -/
theorem renderW_storage (w : World) : (renderW w).storage = w.storage := rfl

/-- C3: with a category at `idx`, activating the add control with input whose
trim is non-empty appends exactly one task `{text := trimmed, completed :=
false}` at the end of that category's list, leaves every other category and
every prior task untouched in place and order, and persists the new state;
input that trims to empty leaves the whole world — list and persisted state —
unchanged (a silent no-op). -/
theorem C3_addTask (w : World) (idx : Nat) (input : String) (sec : Category)
    (hsec : w.data.sections[idx]? = some sec) (hok : w.persistOk = true) :
    (jsTrim input ≠ "" →
      (addBtnOnclick w idx input).data.sections[idx]? =
        some { sec with tasks := sec.tasks ++ [⟨jsTrim input, false⟩] } ∧
      (∀ j, j ≠ idx →
        (addBtnOnclick w idx input).data.sections[j]? = w.data.sections[j]?) ∧
      (∀ j, j < sec.tasks.length →
        (sec.tasks ++ [⟨jsTrim input, false⟩])[j]? = sec.tasks[j]?) ∧
      (addBtnOnclick w idx input).storage =
        some (emitJson (stateToJson (addBtnOnclick w idx input).data))) ∧
    (jsTrim input = "" → addBtnOnclick w idx input = w) := by
  constructor
  · intro htrim
    have hw' : addBtnOnclick w idx input =
        renderW (saveDataW
          { w with
            data :=
              { w.data with
                sections := mapAt w.data.sections idx
                  (fun s => { s with tasks := s.tasks ++ [⟨jsTrim input, false⟩] }) } }) := by
      simp only [addBtnOnclick]
      rw [if_pos htrim]
    refine ⟨?_, ?_, ?_, ?_⟩
    · rw [hw', renderW_data, saveDataW_data]
      show (mapAt w.data.sections idx _)[idx]? = _
      rw [mapAt_getElem_eq, hsec]
      rfl
    · intro j hj
      rw [hw', renderW_data, saveDataW_data]
      exact mapAt_getElem_ne _ _ _ j hj
    · intro j hj
      exact List.getElem?_append_left hj
    · rw [hw', renderW_storage, renderW_data, saveDataW_data, saveDataW, if_pos hok]
  · intro hempty
    simp only [addBtnOnclick]
    rw [if_neg (not_not_intro hempty)]

/-- C3 witness: adding " Swim with dolphins " to category 0 of the fresh
world appends exactly the trimmed task at the end. -/
theorem C3_witness :
    jsTrim " Swim with dolphins " ≠ "" ∧
    (addBtnOnclick initialWorld 0 " Swim with dolphins ").data.sections[0]? =
      some
        { title := "Travel Adventures"
          tasks :=
            [ ⟨"Visit Paris, France", false⟩
            , ⟨"Road trip across Iceland", false⟩
            , ⟨"See the Northern Lights together", false⟩
            , ⟨"Tokyo cherry blossoms", false⟩
            , ⟨"Swim with dolphins", false⟩ ] } := by
  have htrim : jsTrim " Swim with dolphins " ≠ "" := by decide
  have h := (C3_addTask initialWorld 0 " Swim with dolphins "
      ⟨"Travel Adventures",
        [ ⟨"Visit Paris, France", false⟩
        , ⟨"Road trip across Iceland", false⟩
        , ⟨"See the Northern Lights together", false⟩
        , ⟨"Tokyo cherry blossoms", false⟩ ]⟩
      rfl rfl).1 htrim
  exact ⟨htrim, h.1⟩

/-- C4: activating the delete control for position `ti` of the category at
`idx` removes exactly that task — the new list is the old one with element
`ti` removed, i.e. the prefix before `ti` unchanged in place, every later
task shifted down by one, length one less — every other category untouched,
and the new state is persisted. -/
theorem C4_deleteTask (w : World) (idx ti : Nat) (sec : Category)
    (hsec : w.data.sections[idx]? = some sec) (hti : ti < sec.tasks.length)
    (hok : w.persistOk = true) :
    (delBtnOnclick w idx ti).data.sections[idx]? =
      some { sec with tasks := sec.tasks.eraseIdx ti } ∧
    (∀ j, j ≠ idx → (delBtnOnclick w idx ti).data.sections[j]? = w.data.sections[j]?) ∧
    sec.tasks.eraseIdx ti = sec.tasks.take ti ++ sec.tasks.drop (ti + 1) ∧
    (sec.tasks.eraseIdx ti).length = sec.tasks.length - 1 ∧
    (∀ j, j < ti → (sec.tasks.eraseIdx ti)[j]? = sec.tasks[j]?) ∧
    (∀ j, ti ≤ j → (sec.tasks.eraseIdx ti)[j]? = sec.tasks[j + 1]?) ∧
    (delBtnOnclick w idx ti).storage =
      some (emitJson (stateToJson (delBtnOnclick w idx ti).data)) := by
  have hw' : delBtnOnclick w idx ti =
      renderW (saveDataW
        { w with
          data :=
            { w.data with
              sections := mapAt w.data.sections idx
                (fun s => { s with tasks := s.tasks.eraseIdx ti }) } }) := rfl
  refine ⟨?_, ?_, List.eraseIdx_eq_take_drop_succ _ _, eraseIdx_len _ _ hti,
    fun j hj => eraseIdx_get_lt _ _ _ hj, fun j hj => eraseIdx_get_ge _ _ _ hti hj, ?_⟩
  · rw [hw', renderW_data, saveDataW_data]
    show (mapAt w.data.sections idx _)[idx]? = _
    rw [mapAt_getElem_eq, hsec]
    rfl
  · intro j hj
    rw [hw', renderW_data, saveDataW_data]
    exact mapAt_getElem_ne _ _ _ j hj
  · rw [hw', renderW_storage, renderW_data, saveDataW_data, saveDataW, if_pos hok]

/-- C4 witness: deleting position 1 of category 0 in the fresh world. -/
theorem C4_witness :
    (1 : Nat) < 4 ∧
    (delBtnOnclick initialWorld 0 1).data.sections[0]? =
      some
        { title := "Travel Adventures"
          tasks :=
            [ ⟨"Visit Paris, France", false⟩
            , ⟨"See the Northern Lights together", false⟩
            , ⟨"Tokyo cherry blossoms", false⟩ ] } := by
  have h := C4_deleteTask initialWorld 0 1
      ⟨"Travel Adventures",
        [ ⟨"Visit Paris, France", false⟩
        , ⟨"Road trip across Iceland", false⟩
        , ⟨"See the Northern Lights together", false⟩
        , ⟨"Tokyo cherry blossoms", false⟩ ]⟩
      rfl (by decide) rfl
  exact ⟨by decide, h.1⟩

/-- C5: the checkbox delivers the flipped value of the rendered state (render
sets `checked` to the task's `completed`, and a click inverts it before
`onchange` fires), so toggling the task at `(idx, ti)` flips exactly that
task's `completed` field: its text survives, every other task in every
category is untouched, the category titles and the hero and overlay fields of
the state are untouched, and the new state is persisted. -/
theorem C5_toggleTask (w : World) (idx ti : Nat) (sec : Category) (t : Task)
    (hsec : w.data.sections[idx]? = some sec) (ht : sec.tasks[ti]? = some t)
    (hok : w.persistOk = true) :
    (checkboxOnchange w idx ti (!t.completed)).data.sections[idx]? =
      some { sec with tasks := mapAt sec.tasks ti (fun x => { x with completed := !t.completed }) } ∧
    (mapAt sec.tasks ti (fun x => { x with completed := !t.completed }))[ti]? =
      some ⟨t.text, !t.completed⟩ ∧
    (∀ j, j ≠ ti →
      (mapAt sec.tasks ti (fun x => { x with completed := !t.completed }))[j]? = sec.tasks[j]?) ∧
    (∀ j, j ≠ idx →
      (checkboxOnchange w idx ti (!t.completed)).data.sections[j]? = w.data.sections[j]?) ∧
    (checkboxOnchange w idx ti (!t.completed)).data.names = w.data.names ∧
    (checkboxOnchange w idx ti (!t.completed)).data.tagline = w.data.tagline ∧
    (checkboxOnchange w idx ti (!t.completed)).data.background = w.data.background ∧
    (checkboxOnchange w idx ti (!t.completed)).data.overlay = w.data.overlay ∧
    (checkboxOnchange w idx ti (!t.completed)).storage =
      some (emitJson (stateToJson (checkboxOnchange w idx ti (!t.completed)).data)) := by
  have hw' : checkboxOnchange w idx ti (!t.completed) =
      renderW (saveDataW
        { w with
          data :=
            { w.data with
              sections := mapAt w.data.sections idx
                (fun s =>
                  { s with
                    tasks := mapAt s.tasks ti (fun x => { x with completed := !t.completed }) }) } }) :=
    rfl
  refine ⟨?_, ?_, fun j hj => mapAt_getElem_ne _ _ _ j hj, ?_, ?_, ?_, ?_, ?_, ?_⟩
  · rw [hw', renderW_data, saveDataW_data]
    show (mapAt w.data.sections idx _)[idx]? = _
    rw [mapAt_getElem_eq, hsec]
    rfl
  · rw [mapAt_getElem_eq, ht]
    rfl
  · intro j hj
    rw [hw', renderW_data, saveDataW_data]
    exact mapAt_getElem_ne _ _ _ j hj
  · rw [hw', renderW_data, saveDataW_data]
  · rw [hw', renderW_data, saveDataW_data]
  · rw [hw', renderW_data, saveDataW_data]
  · rw [hw', renderW_data, saveDataW_data]
  · rw [hw', renderW_storage, renderW_data, saveDataW_data, saveDataW, if_pos hok]

/-- C5 witness: toggling task 2 of category 1 in the fresh world flips it to
completed and leaves its neighbours alone. -/
theorem C5_witness :
    (checkboxOnchange initialWorld 1 2 true).data.sections[1]? =
      some
        { title := "Personal Goals"
          tasks :=
            [ ⟨"Learn Spanish together", false⟩
            , ⟨"Cook 50 new recipes", false⟩
            , ⟨"Run a 5K together", true⟩
            , ⟨"Read 12 books together", false⟩ ] } := by
  have h := C5_toggleTask initialWorld 1 2
      ⟨"Personal Goals",
        [ ⟨"Learn Spanish together", false⟩
        , ⟨"Cook 50 new recipes", false⟩
        , ⟨"Run a 5K together", false⟩
        , ⟨"Read 12 books together", false⟩ ]⟩
      ⟨"Run a 5K together", false⟩ rfl rfl rfl
  exact h.1

/-- The spec's words for the hero editors' committed value: "the trimmed-or-
empty value … empty input collapses to empty string … non-empty input is
stored trimmed of surrounding whitespace".  Stated from the spec, for
comparison against the code's behaviour. -/
def specTrimmedOrEmpty (s : String) : String := if s = "" then "" else jsTrim s

/-- C6 counterexample: committing the names input with the value " Alice "
stores the raw string " Alice ", not its trimmed form, so the value written
back is not the trimmed-or-empty form of the input.  The handler is
`data.names = e.target.value || ''` (line 113): no trimming anywhere. -/
theorem C6_counterexample :
    (namesInputOnchange initialWorld " Alice ").data.names ≠ specTrimmedOrEmpty " Alice " := by
  decide

/-- C6 as amended: the value written back into the state by the hero names
and tagline editors is exactly the raw input string — empty input collapses
to the empty string (never reverted to the previous value), and non-empty
input is stored verbatim, untrimmed — and the new state is persisted. -/
theorem C6_raw_commit (w : World) (v : String) (hok : w.persistOk = true) :
    (namesInputOnchange w v).data.names = v ∧
    (taglineInputOnchange w v).data.tagline = v ∧
    (v = "" → (namesInputOnchange w v).data.names = "") ∧
    (namesInputOnchange w v).storage =
      some (emitJson (stateToJson (namesInputOnchange w v).data)) ∧
    (taglineInputOnchange w v).storage =
      some (emitJson (stateToJson (taglineInputOnchange w v).data)) := by
  have hid : jsOrEmpty v = v := by
    rw [jsOrEmpty]
    by_cases he : v = ""
    · rw [if_pos he, he]
    · rw [if_neg he]
  refine ⟨?_, ?_, ?_, ?_, ?_⟩
  · rw [namesInputOnchange, saveDataW_data]
    exact hid
  · rw [taglineInputOnchange, saveDataW_data]
    exact hid
  · intro he
    rw [namesInputOnchange, saveDataW_data]
    rw [he] at hid ⊢
    exact hid
  · rw [namesInputOnchange, saveDataW_data, saveDataW, if_pos hok]
  · rw [taglineInputOnchange, saveDataW_data, saveDataW, if_pos hok]

/-- C6 witness: the raw commit at a concrete padded input. -/
theorem C6_witness :
    initialWorld.persistOk = true ∧
    (namesInputOnchange initialWorld " Alice ").data.names = " Alice " :=
  ⟨rfl, (C6_raw_commit initialWorld " Alice " rfl).1⟩

/-- The exact rational a `JNum` denotes. -/
def JNum.val (x : JNum) : ℚ := (x.mant : ℚ) / 10 ^ x.frac

/-- C7: for a value `v` within `[0, 0.9]` delivered by the range control
(the integer side conditions say exactly `0 ≤ v ≤ 9/10`), the slider handler
stores exactly `v` in `state.overlay`, restyles the live overlay element to
`v` directly, performs no re-render (render counter and mounted tree are
untouched), persists exactly the new state, and the stored overlay stays
within `[0, 0.9]`. -/
theorem C7_overlayRange (w : World) (v : JNum)
    (h0 : 0 ≤ v.mant) (h9 : 10 * v.mant ≤ 9 * 10 ^ v.frac) (hok : w.persistOk = true) :
    (rangeInputOninput w v).data.overlay = v ∧
    (rangeInputOninput w v).overlayOpacity = v ∧
    (rangeInputOninput w v).renders = w.renders ∧
    (rangeInputOninput w v).appTree = w.appTree ∧
    (rangeInputOninput w v).storage =
      some (emitJson (stateToJson (rangeInputOninput w v).data)) ∧
    0 ≤ ((rangeInputOninput w v).data.overlay).val ∧
    ((rangeInputOninput w v).data.overlay).val ≤ 9 / 10 := by
  have hval0 : 0 ≤ v.val := by
    rw [JNum.val]
    apply div_nonneg
    · exact_mod_cast h0
    · positivity
  have hval9 : v.val ≤ 9 / 10 := by
    rw [JNum.val, div_le_div_iff₀ (by positivity) (by norm_num)]
    calc (v.mant : ℚ) * 10 = ((10 * v.mant : Int) : ℚ) := by push_cast; ring
    _ ≤ ((9 * 10 ^ v.frac : Int) : ℚ) := by exact_mod_cast h9
    _ = 9 * 10 ^ v.frac := by push_cast; ring
  have hov : (rangeInputOninput w v).data.overlay = v := by
    rw [rangeInputOninput, saveDataW_data]
  refine ⟨hov, ?_, ?_, ?_, ?_, ?_, ?_⟩
  · rw [rangeInputOninput, saveDataW_opacity]
  · rw [rangeInputOninput, saveDataW_renders]
  · rw [rangeInputOninput, saveDataW_appTree]
  · rw [rangeInputOninput, saveDataW_data, saveDataW, if_pos hok]
  · rw [hov]
    exact hval0
  · rw [hov]
    exact hval9

/-- C7 witness: the slider at 0.05 from the fresh world. -/
theorem C7_witness :
    (0 ≤ (⟨5, 2⟩ : JNum).mant ∧ 10 * (⟨5, 2⟩ : JNum).mant ≤ 9 * 10 ^ (⟨5, 2⟩ : JNum).frac) ∧
    (rangeInputOninput initialWorld ⟨5, 2⟩).data.overlay = ⟨5, 2⟩ ∧
    (rangeInputOninput initialWorld ⟨5, 2⟩).renders = initialWorld.renders :=
  have h := C7_overlayRange initialWorld ⟨5, 2⟩ (by decide) (by decide) rfl
  ⟨⟨by decide, by decide⟩, h.1, h.2.2.1⟩

/-- C8: rendering is structurally idempotent — a second render from
unchanged state and mode reproduces the same mounted tree, overlay count and
opacity, body background, state, mode, and storage (only the model's render
instrumentation counter differs) — and after a render from any page with at
most one darkness overlay, exactly one darkness overlay element exists,
because the previously inserted one is removed before the new one is
inserted. -/
theorem C8_render_idempotent (w : World) :
    ((renderW (renderW w)).appTree = (renderW w).appTree ∧
     (renderW (renderW w)).overlayCount = (renderW w).overlayCount ∧
     (renderW (renderW w)).overlayOpacity = (renderW w).overlayOpacity ∧
     (renderW (renderW w)).bodyBackground = (renderW w).bodyBackground ∧
     (renderW (renderW w)).data = (renderW w).data ∧
     (renderW (renderW w)).editMode = (renderW w).editMode ∧
     (renderW (renderW w)).storage = (renderW w).storage) ∧
    (w.overlayCount ≤ 1 → (renderW w).overlayCount = 1) := by
  constructor
  · refine ⟨rfl, ?_, rfl, rfl, rfl, rfl, rfl⟩
    show (if 1 ≤ (if 1 ≤ w.overlayCount then w.overlayCount - 1 else w.overlayCount) + 1 then
        (if 1 ≤ w.overlayCount then w.overlayCount - 1 else w.overlayCount) + 1 - 1
      else (if 1 ≤ w.overlayCount then w.overlayCount - 1 else w.overlayCount) + 1) + 1 =
      (if 1 ≤ w.overlayCount then w.overlayCount - 1 else w.overlayCount) + 1
    split_ifs <;> omega
  · intro h
    show (if 1 ≤ w.overlayCount then w.overlayCount - 1 else w.overlayCount) + 1 = 1
    split_ifs <;> omega

/-- C8 witness: rendering the fresh page mounts exactly one overlay. -/
theorem C8_witness :
    initialWorld.overlayCount ≤ 1 ∧ (renderW initialWorld).overlayCount = 1 :=
  ⟨by decide, (C8_render_idempotent initialWorld).2 (by decide)⟩

end Quest
